import Mathlib

set_option maxRecDepth 40000

/-!
# A model of the permission-aware vector store

This file is a shallow embedding of the core of the `rerag-rbac-rag-llm`
repository: the SQLite-backed vector store of
`internal/storage/sqlite_vector_store.go` (document/vector tables, add,
upsert, and the adaptive filtered KNN search) and the Keto-backed
authorization predicate of `internal/permissions/keto_service.go`.

Modelling conventions:
* UUIDs are modelled as `Nat`, with `0` playing the role of `uuid.Nil`;
  `uuid.NewUUID` is modelled by threading an explicitly supplied fresh id.
* `float32` vector coordinates are modelled as integers (scaled floats);
  every claim depends only on the ordering of KNN distances, which integer
  coordinates realise in full generality.  The doubling
  `newMultiplier := int(float64(multiplier) * growthFactor)` is exact for
  every multiplier the algorithm can reach, so it is modelled as `* 2`.
* SQLite itself is modelled by pure table states.  The `vec0` virtual table
  (the external `sqlite-vec` collaborator) is modelled from the spec's §4.1
  interface contract: KNN returns up to `k` stored vectors ordered by
  ascending distance, inserts reject rows whose dimension differs from the
  declared `FLOAT[n]` column, and querying the table before it has been
  created fails, as any SQL statement on a missing table does.
* The HTTP collaborator of the Keto permission service is modelled by an
  optional response value: `none` models a failed `http.Get`.
-/

namespace ReRag

/-- Model of `models.Document` (`internal/models/document.go`): id, title,
content and the embedding vector (`json:"-"`). -/
structure Document where
  id : Nat
  title : String
  content : String
  embedding : List Int
  deriving Repr, DecidableEq

/-- `uuid.Nil` of the `google/uuid` package, as a `Nat`. -/
def nilId : Nat := 0

/-- A row of the `documents` metadata table
(`id TEXT PRIMARY KEY, title TEXT, content TEXT`). -/
structure MetaRow where
  id : Nat
  title : String
  content : String
  deriving Repr, DecidableEq

/-- A row of the `vec_documents` virtual table
(`id TEXT PRIMARY KEY, embedding FLOAT[n]`). -/
abbrev VecRow := Nat × List Int

/-- Model of `SQLiteVectorStore`: the rows of the two tables, whether the
`vec_documents` table has been created (and with which dimension), and the
`embeddingLength` field of the Go struct. -/
structure Store where
  documents : List MetaRow
  vec : List VecRow
  vecTableDim : Option Nat
  embeddingLength : Nat
  deriving Repr, DecidableEq

/-- `NewSQLiteVectorStore` followed by `initDB`: only the `documents` table
exists, `vec_documents` is created dynamically on first insert, and
`embeddingLength` defaults to 768. -/
def newStore : Store :=
  { documents := [], vec := [], vecTableDim := none, embeddingLength := 768 }

/-- Squared euclidean distance between two vectors, the distance reported by
the `vec0` KNN `MATCH` query (squaring is order-preserving, and only the
ordering of distances is ever consumed). -/
def dist2 (q v : List Int) : Int :=
  ((q.zip v).map (fun p => (p.1 - p.2) ^ 2)).sum

/-- Comparison of `vec_documents` rows by distance to the query, the
`ORDER BY v.distance` ordering. -/
def distLE (q : List Int) (a b : VecRow) : Prop :=
  dist2 q a.2 ≤ dist2 q b.2

instance (q : List Int) : DecidableRel (distLE q) := fun a b => by
  unfold distLE; infer_instance

instance (q : List Int) : IsTotal VecRow (distLE q) :=
  ⟨fun a b => le_total (dist2 q a.2) (dist2 q b.2)⟩

instance (q : List Int) : IsTrans VecRow (distLE q) :=
  ⟨fun _ _ _ hab hbc => le_trans hab hbc⟩

/-- Point lookup of a metadata row by id: the `JOIN documents d ON d.id = v.id`
step of the search query. -/
def findMeta (id : Nat) (rows : List MetaRow) : Option MetaRow :=
  rows.find? (fun m => m.id == id)

/-- The document a search row is turned into: id, title and content are
selected, the embedding vector is deliberately not fetched
(`// Note: We don't fetch the embedding vector to save memory`). -/
def docOfMeta (m : MetaRow) : Document :=
  { id := m.id, title := m.title, content := m.content, embedding := [] }

/-- Joining one `vec_documents` row with the `documents` table; an inner join
drops the row when there is no matching metadata row. -/
def joinRow (s : Store) (r : VecRow) : Option Document :=
  (findMeta r.1 s.documents).map docOfMeta

/-- Modelled from the spec: the external `sqlite-vec` KNN collaborator, §4.1
`knn(queryEmbedding, k)`: "returns up to `k` stored vectors nearest to the
query vector, ordered by ascending distance"; "if fewer than `k` vectors
exist, returns all of them".  A non-positive `k` therefore yields the empty
list. -/
def knnRows (s : Store) (q : List Int) (k : Int) : List VecRow :=
  (List.insertionSort (distLE q) s.vec).take k.toNat

/-- Model of `searchWithSqliteVec`: the
`SELECT d.id, d.title, d.content, v.distance FROM vec_documents v JOIN
documents d ON d.id = v.id WHERE v.embedding MATCH ? AND k = ? ORDER BY
v.distance` query.  Querying `vec_documents` before any document has been
added fails (the table does not exist yet), and a query vector whose length
differs from the declared `FLOAT[n]` dimension is a dimension-mismatch error
(spec §4.1 failure semantics). -/
def searchWithSqliteVec (s : Store) (q : List Int) (topK : Int) :
    Except String (List Document) :=
  match s.vecTableDim with
  | none => .error "no such table: vec_documents"
  | some dim =>
    if q.length = dim then
      .ok ((knnRows s q topK).filterMap (joinRow s))
    else
      .error "dimension mismatch between query and stored vectors"

/-- The loop body of `applyFilter`, with the accumulated `filtered` slice made
explicit: append the candidate when the filter accepts it, and break as soon
as `len(filtered) >= topK` (checked after appending). -/
def applyFilterAux (filter : Document → Bool) (topK : Int) :
    List Document → List Document → List Document
  | acc, [] => acc
  | acc, c :: rest =>
    if filter c then
      if topK ≤ ((acc ++ [c]).length : Int) then acc ++ [c]
      else applyFilterAux filter topK (acc ++ [c]) rest
    else applyFilterAux filter topK acc rest

/-- Model of `applyFilter`: applies the filter function to candidates in
order and returns up to `topK` results. -/
def applyFilter (candidates : List Document) (topK : Int)
    (filter : Document → Bool) : List Document :=
  applyFilterAux filter topK [] candidates

/-- `initialMultiplier = 2`. -/
def initialMultiplier : Int := 2

/-- `maxAttempts = 10`. -/
def maxAttempts : Nat := 10

/-- The max-attempts branch of `searchWithFilterRecursive`: fetch
`topK*multiplier` candidates one last time and return the filtered results,
propagating a search error. -/
def searchCeiling (s : Store) (q : List Int) (topK : Int)
    (filter : Document → Bool) (multiplier : Int) :
    Except String (List Document) :=
  (searchWithSqliteVec s q (topK * multiplier)).map
    (fun candidates => applyFilter candidates topK filter)

/-- The recursion of `searchWithFilterRecursive`, made structural on the fuel
`maxAttempts - attempt`, which is zero exactly when the safety guard
`attempt >= maxAttempts` fires (see `searchWithFilterRecursive_eq` for the
faithful one-step unfolding). -/
def searchGo (s : Store) (q : List Int) (topK : Int)
    (filter : Document → Bool) :
    Nat → Int → Nat → Except String (List Document)
  | 0, multiplier, _attempt => searchCeiling s q topK filter multiplier
  | fuel + 1, multiplier, attempt =>
    match searchWithSqliteVec s q (topK * multiplier) with
    | .error e => .error e
    | .ok candidates =>
      let filtered := applyFilter candidates topK filter
      if topK ≤ (filtered.length : Int) ∨
          (candidates.length : Int) < topK * multiplier then
        .ok filtered
      else
        searchGo s q topK filter fuel (multiplier * 2) (attempt + 1)

/-- Model of `searchWithFilterRecursive`: recursively fetches more candidates
until `topK` matching documents are found.  `growthFactor = 2.0`; doubling an
`int` through `float64` is exact for every multiplier the algorithm reaches,
hence `multiplier * 2`. -/
def searchWithFilterRecursive (s : Store) (q : List Int) (topK : Int)
    (filter : Document → Bool) (multiplier : Int) (attempt : Nat) :
    Except String (List Document) :=
  searchGo s q topK filter (maxAttempts - attempt) multiplier attempt

/-- The faithful one-step unfolding of `searchWithFilterRecursive`, matching
the Go source: safety check `attempt >= maxAttempts` first, then fetch
`candidateCount = topK * multiplier` candidates, filter them, return when
enough results were found or the corpus is exhausted, otherwise recurse with
a doubled multiplier and incremented attempt counter. -/
theorem searchWithFilterRecursive_eq (s : Store) (q : List Int) (topK : Int)
    (filter : Document → Bool) (multiplier : Int) (attempt : Nat) :
    searchWithFilterRecursive s q topK filter multiplier attempt =
      if maxAttempts ≤ attempt then
        searchCeiling s q topK filter multiplier
      else
        match searchWithSqliteVec s q (topK * multiplier) with
        | .error e => .error e
        | .ok candidates =>
          let filtered := applyFilter candidates topK filter
          if topK ≤ (filtered.length : Int) ∨
              (candidates.length : Int) < topK * multiplier then
            .ok filtered
          else
            searchWithFilterRecursive s q topK filter (multiplier * 2)
              (attempt + 1) := by
  by_cases h : maxAttempts ≤ attempt
  · have h0 : maxAttempts - attempt = 0 := Nat.sub_eq_zero_of_le h
    simp [searchWithFilterRecursive, h0, searchGo, h]
  · have h1 : maxAttempts - attempt = (maxAttempts - (attempt + 1)) + 1 := by
      omega
    simp only [searchWithFilterRecursive, h1, searchGo, if_neg h]

/-- Model of `SearchSimilarWithFilter`: the entry point of the adaptive
filtered search. -/
def SearchSimilarWithFilter (s : Store) (q : List Int) (topK : Int)
    (filter : Document → Bool) : Except String (List Document) :=
  searchWithFilterRecursive s q topK filter initialMultiplier 0

/-- Structural companion of `searchGo` recording the `k` values requested
from the KNN index. -/
def ksGo (s : Store) (q : List Int) (topK : Int)
    (filter : Document → Bool) : Nat → Int → Nat → List Int
  | 0, multiplier, _attempt => [topK * multiplier]
  | fuel + 1, multiplier, attempt =>
    match searchWithSqliteVec s q (topK * multiplier) with
    | .error _ => [topK * multiplier]
    | .ok candidates =>
      let filtered := applyFilter candidates topK filter
      if topK ≤ (filtered.length : Int) ∨
          (candidates.length : Int) < topK * multiplier then
        [topK * multiplier]
      else
        topK * multiplier ::
          ksGo s q topK filter fuel (multiplier * 2) (attempt + 1)

/-- Ghost instrumentation of `searchWithFilterRecursive`: the list of `k`
values passed to the KNN index query (`candidateCount = topK * multiplier` at
each attempt, and `topK*multiplier` once more in the max-attempts branch),
one entry per KNN query issued, in order. -/
def searchRequestedKs (s : Store) (q : List Int) (topK : Int)
    (filter : Document → Bool) (multiplier : Int) (attempt : Nat) :
    List Int :=
  ksGo s q topK filter (maxAttempts - attempt) multiplier attempt

/-- The faithful one-step unfolding of `searchRequestedKs`, mirroring
`searchWithFilterRecursive_eq`. -/
theorem searchRequestedKs_eq (s : Store) (q : List Int) (topK : Int)
    (filter : Document → Bool) (multiplier : Int) (attempt : Nat) :
    searchRequestedKs s q topK filter multiplier attempt =
      if maxAttempts ≤ attempt then
        [topK * multiplier]
      else
        match searchWithSqliteVec s q (topK * multiplier) with
        | .error _ => [topK * multiplier]
        | .ok candidates =>
          let filtered := applyFilter candidates topK filter
          if topK ≤ (filtered.length : Int) ∨
              (candidates.length : Int) < topK * multiplier then
            [topK * multiplier]
          else
            topK * multiplier ::
              searchRequestedKs s q topK filter (multiplier * 2)
                (attempt + 1) := by
  by_cases h : maxAttempts ≤ attempt
  · have h0 : maxAttempts - attempt = 0 := Nat.sub_eq_zero_of_le h
    simp [searchRequestedKs, h0, ksGo, h]
  · have h1 : maxAttempts - attempt = (maxAttempts - (attempt + 1)) + 1 := by
      omega
    simp only [searchRequestedKs, h1, ksGo, if_neg h]

/-- Model of `ensureVecTableExists`: refuse to change the embedding length
away from a non-default value while documents exist; create the
`vec_documents` table (recording its dimension) on first use, also setting
the `embeddingLength` field. -/
def ensureVecTableExists (s : Store) (embeddingLen : Nat) :
    Except String Store :=
  if s.embeddingLength ≠ embeddingLen ∧ s.embeddingLength ≠ 768 ∧
      0 < s.documents.length then
    .error "cannot change embedding length with existing documents"
  else
    match s.vecTableDim with
    | some _ => .ok s
    | none =>
      .ok { s with embeddingLength := embeddingLen,
                   vecTableDim := some embeddingLen }

/-- `INSERT INTO documents (id, title, content) VALUES (?, ?, ?)`: fails on a
primary-key conflict. -/
def metaInsert (rows : List MetaRow) (m : MetaRow) :
    Except String (List MetaRow) :=
  if rows.any (fun r => r.id == m.id) then
    .error "UNIQUE constraint failed: documents.id"
  else
    .ok (rows ++ [m])

/-- `INSERT INTO documents ... ON CONFLICT(id) DO UPDATE SET title, content`:
replace the conflicting row in place, otherwise append. -/
def metaUpsert (rows : List MetaRow) (m : MetaRow) : List MetaRow :=
  if rows.any (fun r => r.id == m.id) then
    rows.map (fun r => if r.id == m.id then
      { r with title := m.title, content := m.content } else r)
  else
    rows ++ [m]

/-- Modelled from the spec: inserting into the external `vec0` virtual table,
§4.1 `insert(id, embedding) -> ok | error(DimensionMismatch)`; the `id`
column is a primary key. -/
def vecInsert (rows : List VecRow) (dim : Nat) (id : Nat) (emb : List Int) :
    Except String (List VecRow) :=
  if emb.length ≠ dim then
    .error "vector dimension mismatch"
  else if rows.any (fun r => r.1 == id) then
    .error "UNIQUE constraint failed: vec_documents.id"
  else
    .ok (rows ++ [(id, emb)])

/-- Model of `AddDocument`: assign a fresh id when the document carries
`uuid.Nil`, ensure the vector table exists, then insert metadata and vector
inside one transaction; on any error the transaction is rolled back and the
post-call table rows are the pre-transaction ones.  The result is the Go
`error` value together with the post-call store and (possibly id-assigned)
document. -/
def AddDocument (s : Store) (d : Document) (freshId : Nat) :
    Except String Unit × Store × Document :=
  let d := if d.id = nilId then { d with id := freshId } else d
  match ensureVecTableExists s d.embedding.length with
  | .error e => (.error e, s, d)
  | .ok s1 =>
    match metaInsert s1.documents { id := d.id, title := d.title, content := d.content } with
    | .error e => (.error e, s1, d)
    | .ok docs2 =>
      match vecInsert s1.vec (s1.vecTableDim.getD s1.embeddingLength) d.id d.embedding with
      | .error e => (.error e, s1, d)
      | .ok vec2 => (.ok (), { s1 with documents := docs2, vec := vec2 }, d)

/-- Model of `UpsertDocument`: like `AddDocument` but the metadata write is an
upsert and the vector write is a delete-then-insert, all in one
transaction. -/
def UpsertDocument (s : Store) (d : Document) (freshId : Nat) :
    Except String Unit × Store × Document :=
  let d := if d.id = nilId then { d with id := freshId } else d
  match ensureVecTableExists s d.embedding.length with
  | .error e => (.error e, s, d)
  | .ok s1 =>
    let docs2 := metaUpsert s1.documents { id := d.id, title := d.title, content := d.content }
    let vecDeleted := s1.vec.filter (fun r => !(r.1 == d.id))
    match vecInsert vecDeleted (s1.vecTableDim.getD s1.embeddingLength) d.id d.embedding with
    | .error e => (.error e, s1, d)
    | .ok vec2 => (.ok (), { s1 with documents := docs2, vec := vec2 }, d)

/-- Row comparison for `ORDER BY id DESC`. -/
def idGE (a b : MetaRow) : Prop := b.id ≤ a.id

instance : DecidableRel idGE := fun a b => by unfold idGE; infer_instance

/-- Model of `GetAllDocuments`: `SELECT id, title, content FROM documents
ORDER BY id DESC`, embeddings not fetched. -/
def GetAllDocuments (s : Store) : List Document :=
  (List.insertionSort idGE s.documents).map docOfMeta

/-! ## The Keto permission service (`internal/permissions/keto_service.go`) -/

/-- The document metadata consumed by `documentToKetoObject`: the optional
`"taxpayer"` (string) and `"year"` (numeric) entries of
`models.Document.Metadata`. -/
structure KDocMeta where
  taxpayer : Option String
  year : Option Nat
  deriving Repr, DecidableEq

/-- Model of `documentToKetoObject`: kebab-cased lowercased taxpayer plus the
year (or `"unknown"`); `none` models the empty object id returned when no
taxpayer metadata is present. -/
def documentToKetoObject (m : KDocMeta) : Option String :=
  m.taxpayer.map (fun t =>
    (t.replace " " "-").toLower ++ ":" ++
      (match m.year with
       | some y => toString y
       | none => "unknown"))

/-- The outcome of the `http.Get` against the Keto read API: `none` models a
transport error; otherwise a status code and the parsed `"allowed"` field
(`none` when the body could not be read or unmarshalled). -/
structure KetoHTTPResponse where
  status : Nat
  allowed : Option Bool
  deriving Repr, DecidableEq

/-- Model of `KetoPermissionService.CanAccessDocument`: every failure — an
unmappable document, a failed `http.Get`, a non-200 status, an unreadable or
unparsable body — is logged and turned into `false`; only a 200 response with
`"allowed": true` yields `true`. -/
def CanAccessDocument (resp : Option KetoHTTPResponse) (m : KDocMeta) : Bool :=
  match documentToKetoObject m with
  | none => false
  | some _ =>
    match resp with
    | none => false
    | some r =>
      if r.status = 200 then r.allowed.getD false else false

end ReRag

instance {ε α : Type} [DecidableEq ε] [DecidableEq α] : DecidableEq (Except ε α)
  | .error a, .error b =>
    if h : a = b then .isTrue (by rw [h]) else .isFalse (by simp [h])
  | .error _, .ok _ => .isFalse (by simp)
  | .ok _, .error _ => .isFalse (by simp)
  | .ok a, .ok b =>
    if h : a = b then .isTrue (by rw [h]) else .isFalse (by simp [h])

namespace ReRag

/-! ## Concrete instances used as witnesses -/

/-- A small reachable store: two one-dimensional documents. -/
def exStore : Store :=
  { documents := [⟨1, "t1", "c1"⟩, ⟨2, "t2", "c2"⟩]
  , vec := [(1, [1]), (2, [2])]
  , vecTableDim := some 1
  , embeddingLength := 1 }

/-- A query embedding matching `exStore`. -/
def exQ : List Int := [0]

/-! ## Basic lemmas about `applyFilter` -/

theorem applyFilterAux_mem (filter : Document → Bool) (topK : Int) :
    ∀ (c acc : List Document) (d : Document),
      d ∈ applyFilterAux filter topK acc c →
      d ∈ acc ∨ (d ∈ c ∧ filter d = true) := by
  intro c
  induction c with
  | nil => intro acc d hd; exact Or.inl hd
  | cons a rest ih =>
    intro acc d hd
    rw [applyFilterAux] at hd
    by_cases hf : filter a = true
    · rw [if_pos hf] at hd
      by_cases hl : topK ≤ (((acc ++ [a]).length : Nat) : Int)
      · rw [if_pos hl] at hd
        rcases List.mem_append.1 hd with h | h
        · exact Or.inl h
        · have hda : d = a := List.mem_singleton.1 h
          subst hda
          exact Or.inr ⟨List.mem_cons_self d rest, hf⟩
      · rw [if_neg hl] at hd
        rcases ih (acc ++ [a]) d hd with h | h
        · rcases List.mem_append.1 h with h | h
          · exact Or.inl h
          · have hda : d = a := List.mem_singleton.1 h
            subst hda
            exact Or.inr ⟨List.mem_cons_self d rest, hf⟩
        · exact Or.inr ⟨List.mem_cons_of_mem a h.1, h.2⟩
    · rw [if_neg hf] at hd
      rcases ih acc d hd with h | h
      · exact Or.inl h
      · exact Or.inr ⟨List.mem_cons_of_mem a h.1, h.2⟩

theorem applyFilter_mem {candidates : List Document} {topK : Int}
    {filter : Document → Bool} {d : Document}
    (hd : d ∈ applyFilter candidates topK filter) :
    d ∈ candidates ∧ filter d = true := by
  rcases applyFilterAux_mem filter topK candidates [] d hd with h | h
  · cases h
  · exact h

theorem applyFilterAux_of_all_false {filter : Document → Bool} {topK : Int} :
    ∀ (c acc : List Document), (∀ d ∈ c, filter d = false) →
      applyFilterAux filter topK acc c = acc := by
  intro c
  induction c with
  | nil => intro acc _; rfl
  | cons a rest ih =>
    intro acc hall
    rw [applyFilterAux]
    have ha : filter a = false := hall a (List.mem_cons_self a rest)
    rw [if_neg (by simp [ha])]
    exact ih acc (fun d hd => hall d (List.mem_cons_of_mem a hd))

theorem applyFilter_of_all_false {candidates : List Document} {topK : Int}
    {filter : Document → Bool} (hall : ∀ d ∈ candidates, filter d = false) :
    applyFilter candidates topK filter = [] :=
  applyFilterAux_of_all_false candidates [] hall

/-! ## Basic lemmas about `searchWithSqliteVec` -/

theorem searchWithSqliteVec_ok {s : Store} {q : List Int} {dim : Nat}
    (htab : s.vecTableDim = some dim) (hq : q.length = dim) (k : Int) :
    searchWithSqliteVec s q k = .ok ((knnRows s q k).filterMap (joinRow s)) := by
  rw [searchWithSqliteVec, htab]
  exact if_pos hq

theorem searchWithSqliteVec_ok_inv {s : Store} {q : List Int} {k : Int}
    {candidates : List Document}
    (h : searchWithSqliteVec s q k = .ok candidates) :
    candidates = (knnRows s q k).filterMap (joinRow s) := by
  rw [searchWithSqliteVec] at h
  revert h
  split
  · intro h; cases h
  · split
    · intro h; exact (Except.ok.inj h).symm
    · intro h; cases h

theorem embedding_eq_nil_of_mem_filterMap {s : Store} {rows : List VecRow}
    {d : Document} (hd : d ∈ rows.filterMap (joinRow s)) :
    d.embedding = [] := by
  rcases List.mem_filterMap.1 hd with ⟨r, _, hr⟩
  rw [joinRow] at hr
  rcases Option.map_eq_some'.1 hr with ⟨m, _, hm⟩
  rw [← hm]; rfl

/-- With the vector table present and a query of matching dimension, the KNN
query never fails, so neither does the whole recursive search. -/
theorem searchGo_ok {s : Store} {q : List Int} {dim : Nat}
    (htab : s.vecTableDim = some dim) (hq : q.length = dim)
    (topK : Int) (filter : Document → Bool) :
    ∀ (fuel : Nat) (multiplier : Int) (attempt : Nat),
      ∃ res, searchGo s q topK filter fuel multiplier attempt = .ok res := by
  intro fuel
  induction fuel with
  | zero =>
    intro multiplier attempt
    rw [searchGo, searchCeiling, searchWithSqliteVec_ok htab hq]
    exact ⟨_, rfl⟩
  | succ fuel ih =>
    intro multiplier attempt
    rw [searchGo, searchWithSqliteVec_ok htab hq]
    by_cases hc : topK ≤ ((applyFilter ((knnRows s q (topK * multiplier)).filterMap (joinRow s)) topK filter).length : Int) ∨
        ((((knnRows s q (topK * multiplier)).filterMap (joinRow s)).length : Nat) : Int) < topK * multiplier
    · simp only [if_pos hc]
      exact ⟨_, rfl⟩
    · simp only [if_neg hc]
      exact ih (multiplier * 2) (attempt + 1)

/-- Every document in an `.ok` result of the recursive search passed the
filter and came out of a KNN+join query, hence carries no embedding. -/
theorem searchGo_result_mem {s : Store} {q : List Int} {topK : Int}
    {filter : Document → Bool} :
    ∀ (fuel : Nat) (multiplier : Int) (attempt : Nat) (res : List Document),
      searchGo s q topK filter fuel multiplier attempt = .ok res →
      ∀ d ∈ res, filter d = true ∧ d.embedding = [] := by
  intro fuel
  induction fuel with
  | zero =>
    intro multiplier attempt res hres d hd
    rw [searchGo, searchCeiling] at hres
    cases hvec : searchWithSqliteVec s q (topK * multiplier) with
    | error e => rw [hvec] at hres; cases hres
    | ok candidates =>
      rw [hvec] at hres
      have : applyFilter candidates topK filter = res := by
        simpa [Except.map] using hres
      rw [← this] at hd
      have hmem := applyFilter_mem hd
      exact ⟨hmem.2,
        embedding_eq_nil_of_mem_filterMap (searchWithSqliteVec_ok_inv hvec ▸ hmem.1)⟩
  | succ fuel ih =>
    intro multiplier attempt res hres d hd
    rw [searchGo] at hres
    cases hvec : searchWithSqliteVec s q (topK * multiplier) with
    | error e => rw [hvec] at hres; cases hres
    | ok candidates =>
      rw [hvec] at hres
      simp only at hres
      by_cases hc : topK ≤ ((applyFilter candidates topK filter).length : Int) ∨
          ((candidates.length : Nat) : Int) < topK * multiplier
      · rw [if_pos hc] at hres
        have : applyFilter candidates topK filter = res := Except.ok.inj hres
        rw [← this] at hd
        have hmem := applyFilter_mem hd
        exact ⟨hmem.2,
          embedding_eq_nil_of_mem_filterMap (searchWithSqliteVec_ok_inv hvec ▸ hmem.1)⟩
      · rw [if_neg hc] at hres
        exact ih (multiplier * 2) (attempt + 1) res hres d hd

end ReRag

namespace ReRag

/-! ## Lemmas about the write path -/

/-- Inversion for a successful `ensureVecTableExists`: either nothing changed,
or the vector table was just created with the requested dimension (also
updating the `embeddingLength` field). -/
theorem ensureVecTableExists_ok_cases {s : Store} {len : Nat} {s1 : Store}
    (h : ensureVecTableExists s len = .ok s1) :
    s1 = s ∨ (s.vecTableDim = none ∧
      s1 = { s with embeddingLength := len, vecTableDim := some len }) := by
  rw [ensureVecTableExists] at h
  revert h
  split
  · intro h; cases h
  · split
    · intro h
      exact Or.inl (Except.ok.inj h).symm
    · rename_i hnone
      intro h
      exact Or.inr ⟨hnone, (Except.ok.inj h).symm⟩

/-- A successful `ensureVecTableExists` never touches the table rows. -/
theorem ensureVecTableExists_ok_rows {s : Store} {len : Nat} {s1 : Store}
    (h : ensureVecTableExists s len = .ok s1) :
    s1.documents = s.documents ∧ s1.vec = s.vec := by
  rcases ensureVecTableExists_ok_cases h with h1 | ⟨_, h1⟩ <;> rw [h1] <;>
    exact ⟨rfl, rfl⟩

/-- Deleting all vector rows with a given id leaves none behind. -/
theorem any_filter_not_id (l : List VecRow) (id : Nat) :
    (l.filter (fun r => !(r.1 == id))).any (fun r => r.1 == id) = false := by
  rw [List.any_eq_false]
  intro r hr
  have := (List.mem_filter.1 hr).2
  simpa using this

end ReRag

namespace ReRag

/-- C6: if `UpsertDocument` returns an error, the store — metadata rows and
vector rows alike — is exactly its pre-call state: the only error paths are
the pre-transaction `ensureVecTableExists` rejection and the in-transaction
vector insert, which is rolled back. -/
theorem upsert_error_leaves_store_unchanged (s : Store) (d : Document)
    (freshId : Nat) (e : String)
    (herr : (UpsertDocument s d freshId).1 = .error e) :
    (UpsertDocument s d freshId).2.1 = s := by
  rw [UpsertDocument] at herr ⊢
  revert herr
  dsimp only
  split
  · intro _; rfl
  · rename_i s1 hens
    split
    · rename_i e2 hvec
      intro _
      rcases ensureVecTableExists_ok_cases hens with hs1 | ⟨_, hs1⟩
      · exact hs1
      · exfalso
        rw [hs1] at hvec
        rw [vecInsert] at hvec
        rw [if_neg (by simp)] at hvec
        rw [if_neg (by simp [any_filter_not_id])] at hvec
        cases hvec
    · intro herr; cases herr

end ReRag

namespace ReRag

/-- Witness for C6: upserting a 2-dimensional document into the
1-dimensional `exStore` fails, and the store is returned unchanged. -/
theorem upsert_error_leaves_store_unchanged_witness :
    (UpsertDocument exStore ⟨3, "t3", "c3", [1, 2]⟩ 9).2.1 = exStore :=
  upsert_error_leaves_store_unchanged exStore ⟨3, "t3", "c3", [1, 2]⟩ 9
    "cannot change embedding length with existing documents" (by decide)

/-- C5 (the code as written): on a freshly initialised store no document has
ever been added, so the `vec_documents` table does not exist and
`SearchSimilarWithFilter` fails with a missing-table error for every query,
every `K` and every filter — it does not return the empty result the spec
requires. -/
theorem emptyCorpus_search_errors (q : List Int) (topK : Int)
    (filter : Document → Bool) :
    SearchSimilarWithFilter newStore q topK filter =
      .error "no such table: vec_documents" := by
  rw [SearchSimilarWithFilter, searchWithFilterRecursive_eq,
    if_neg (by simp [maxAttempts])]
  rfl

/-- Counterexample to C9 as stated: with `K = 0` on a fresh (empty) store the
search returns a missing-table error, not an empty result. -/
theorem kNonPos_error_on_fresh_store :
    SearchSimilarWithFilter newStore [0] 0 (fun _ => true) =
      .error "no such table: vec_documents" := by decide

/-- C9 (amended): on a store whose vector table exists, with a query of the
table's dimension, `K ≤ 0` yields the empty result and no error: the KNN
query requests `K * 2 ≤ 0` candidates and gets none, and the loop exits at
once since `len(filtered) = 0 ≥ K`. -/
theorem kNonPos_returns_empty (s : Store) (q : List Int) (topK : Int)
    (filter : Document → Bool) (dim : Nat)
    (htab : s.vecTableDim = some dim) (hq : q.length = dim)
    (hK : topK ≤ 0) :
    SearchSimilarWithFilter s q topK filter = .ok [] := by
  rw [SearchSimilarWithFilter, searchWithFilterRecursive_eq,
    if_neg (by simp [maxAttempts])]
  have hknn : knnRows s q (topK * initialMultiplier) = [] := by
    rw [knnRows]
    have h0 : (topK * initialMultiplier).toNat = 0 := by
      rw [initialMultiplier]; omega
    rw [h0, List.take_zero]
  rw [searchWithSqliteVec_ok htab hq, hknn]
  simp only [List.filterMap_nil]
  have happ : applyFilter [] topK filter = [] := rfl
  simp [happ, hK]

/-- Witness for C9 (amended) at `K = 0` on `exStore`. -/
theorem kNonPos_returns_empty_witness :
    SearchSimilarWithFilter exStore exQ 0 (fun _ => true) = .ok [] :=
  kNonPos_returns_empty exStore exQ 0 (fun _ => true) 1 (by decide) (by decide)
    (by decide)

/-- A failed authorization collaborator call (`http.Get` error) makes
`CanAccessDocument` return `false` for every document. -/
theorem canAccess_false_of_collab_error (m : KDocMeta) :
    CanAccessDocument none m = false := by
  rw [CanAccessDocument]
  cases documentToKetoObject m <;> rfl

/-- A filter that rejects everything makes the whole recursive search return
the empty result (never an error), at every fuel level. -/
theorem searchGo_of_false {s : Store} {q : List Int} {dim : Nat}
    (htab : s.vecTableDim = some dim) (hq : q.length = dim)
    {topK : Int} {filter : Document → Bool}
    (hfalse : ∀ d : Document, filter d = false) :
    ∀ (fuel : Nat) (multiplier : Int) (attempt : Nat),
      searchGo s q topK filter fuel multiplier attempt = .ok [] := by
  intro fuel
  induction fuel with
  | zero =>
    intro multiplier attempt
    rw [searchGo, searchCeiling, searchWithSqliteVec_ok htab hq]
    simp [Except.map, applyFilter_of_all_false (fun d _ => hfalse d)]
  | succ fuel ih =>
    intro multiplier attempt
    rw [searchGo, searchWithSqliteVec_ok htab hq]
    dsimp only
    rw [applyFilter_of_all_false (fun d _ => hfalse d)]
    by_cases hc : topK ≤ (([] : List Document).length : Int) ∨
        ((((knnRows s q (topK * multiplier)).filterMap (joinRow s)).length : Nat) : Int) <
          topK * multiplier
    · rw [if_pos hc]
    · rw [if_neg hc]
      exact ih (multiplier * 2) (attempt + 1)

/-- Counterexample to C3 as stated: `exStore` holds one candidate whose
metadata maps to a valid Keto object, and the collaborator errors for it
(`resp = none`).  The claim demands that the whole search fail with an error;
instead `CanAccessDocument` turns the failure into `false`, the candidate is
silently dropped, and the very search that returns the document under a
200/allowed response returns a successful empty result under the erroring
collaborator. -/
theorem collabError_search_succeeds_empty :
    CanAccessDocument none ⟨some "John Doe", some 2024⟩ = false ∧
    CanAccessDocument (some ⟨200, some true⟩) ⟨some "John Doe", some 2024⟩ = true ∧
    SearchSimilarWithFilter exStore exQ 1
      (fun _ => CanAccessDocument none ⟨some "John Doe", some 2024⟩) = .ok [] ∧
    SearchSimilarWithFilter exStore exQ 1
      (fun _ => CanAccessDocument (some ⟨200, some true⟩) ⟨some "John Doe", some 2024⟩) =
      .ok [⟨1, "t1", "c1", []⟩] := by
  exact ⟨by decide, by decide, by decide, by decide⟩

/-- C3 (amended): when the authorization collaborator errors for the
candidates of a search (modelled by `resp = none` for every candidate),
`CanAccessDocument` returns `false`, each candidate is silently treated as
"not authorized", and the search completes successfully with an empty result
instead of failing. -/
theorem collabError_means_deny (s : Store) (q : List Int) (topK : Int)
    (dim : Nat) (metaOf : Document → KDocMeta)
    (htab : s.vecTableDim = some dim) (hq : q.length = dim) :
    SearchSimilarWithFilter s q topK
      (fun d => CanAccessDocument none (metaOf d)) = .ok [] := by
  exact searchGo_of_false htab hq
    (fun d => canAccess_false_of_collab_error (metaOf d))
    (maxAttempts - 0) initialMultiplier 0

/-- Witness for C3 (amended) on `exStore`. -/
theorem collabError_means_deny_witness :
    SearchSimilarWithFilter exStore exQ 2
      (fun _ => CanAccessDocument none ⟨some "Jane Roe", none⟩) = .ok [] :=
  collabError_means_deny exStore exQ 2 1 (fun _ => ⟨some "Jane Roe", none⟩)
    (by decide) (by decide)

end ReRag

namespace ReRag

/-- C1: for every store state, query embedding, requested count and
authorization predicate, every document a successful
`SearchSimilarWithFilter` returns satisfies the predicate — the search never
surfaces a document the caller is not authorized to see. -/
theorem search_results_satisfy_filter (s : Store) (q : List Int) (topK : Int)
    (filter : Document → Bool) (res : List Document)
    (hres : SearchSimilarWithFilter s q topK filter = .ok res) :
    ∀ d ∈ res, filter d = true := by
  intro d hd
  exact (searchGo_result_mem (maxAttempts - 0) initialMultiplier 0 res hres d hd).1

/-- Witness for C1 on `exStore`: the document returned by the concrete search
indeed satisfies the predicate. -/
theorem search_results_satisfy_filter_witness :
    (fun d : Document => d.id == 2) ⟨2, "t2", "c2", []⟩ = true :=
  search_results_satisfy_filter exStore exQ 1 (fun d => d.id == 2)
    [⟨2, "t2", "c2", []⟩] (by decide) ⟨2, "t2", "c2", []⟩ (by decide)

/-- C10: every document a successful `SearchSimilarWithFilter` returns has an
empty embedding field — the search query selects only id, title and content,
never the stored vector. -/
theorem search_results_have_no_embedding (s : Store) (q : List Int)
    (topK : Int) (filter : Document → Bool) (res : List Document)
    (hres : SearchSimilarWithFilter s q topK filter = .ok res) :
    ∀ d ∈ res, d.embedding = [] := by
  intro d hd
  exact (searchGo_result_mem (maxAttempts - 0) initialMultiplier 0 res hres d hd).2

/-- Witness for C10 on `exStore`, whose stored record for id 2 does carry the
embedding `[2]`. -/
theorem search_results_have_no_embedding_witness :
    (⟨2, "t2", "c2", []⟩ : Document).embedding = [] :=
  search_results_have_no_embedding exStore exQ 1 (fun d => d.id == 2)
    [⟨2, "t2", "c2", []⟩] (by decide) ⟨2, "t2", "c2", []⟩ (by decide)

/-! ## Lemmas about `metaUpsert` -/

/-- The in-place `ON CONFLICT ... DO UPDATE` rewrite does not change any row
id. -/
theorem map_id_map_replace (rows : List MetaRow) (m : MetaRow) :
    ((rows.map (fun r => if r.id == m.id then
      { r with title := m.title, content := m.content } else r)).map
        MetaRow.id) = rows.map MetaRow.id := by
  rw [List.map_map]
  apply List.map_congr_left
  intro r _
  by_cases h : r.id == m.id
  · simp only [Function.comp_apply, if_pos h]
  · simp only [Function.comp_apply, if_neg h]

/-- `metaUpsert` preserves distinctness of row ids (the `PRIMARY KEY`
invariant of the `documents` table). -/
theorem metaUpsert_nodup {rows : List MetaRow} {m : MetaRow}
    (h : (rows.map MetaRow.id).Nodup) :
    ((metaUpsert rows m).map MetaRow.id).Nodup := by
  rw [metaUpsert]
  split
  · rw [map_id_map_replace]; exact h
  · rename_i hany
    rw [List.map_append]
    have hnotmem : m.id ∉ rows.map MetaRow.id := by
      intro hmem
      rcases List.mem_map.1 hmem with ⟨r, hr, hrid⟩
      exact hany (List.any_eq_true.2 ⟨r, hr, by simp [hrid]⟩)
    simpa [List.nodup_append, h] using hnotmem

/-- Filtering the replaced rows for the upserted id returns exactly the
updated row when the id was present, and nothing otherwise. -/
theorem filter_map_replace (rows : List MetaRow) (m : MetaRow)
    (hnodup : (rows.map MetaRow.id).Nodup) :
    ((rows.map (fun r => if r.id == m.id then
      { r with title := m.title, content := m.content } else r)).filter
        (fun r => r.id == m.id)) =
      if rows.any (fun r => r.id == m.id) then [m] else [] := by
  induction rows with
  | nil => rfl
  | cons r rest ih =>
    rw [List.map_cons, List.nodup_cons] at hnodup
    obtain ⟨hnotin, hndrest⟩ := hnodup
    rw [List.map_cons, List.any_cons]
    by_cases hr : (r.id == m.id) = true
    · have hid : r.id = m.id := by simpa using hr
      have hrepl : (if (r.id == m.id) = true then
          ({ r with title := m.title, content := m.content } : MetaRow)
          else r) = m := by
        rw [if_pos hr]
        show (⟨r.id, m.title, m.content⟩ : MetaRow) = m
        rw [hid]
      rw [hrepl, List.filter_cons]
      have hm : ((m.id == m.id) : Bool) = true := by simp
      rw [if_pos hm]
      have hrestnil : ((rest.map (fun x => if x.id == m.id then
          { x with title := m.title, content := m.content } else x)).filter
            (fun x => x.id == m.id)) = [] := by
        rw [ih hndrest]
        have hfalse : rest.any (fun x => x.id == m.id) = false := by
          rw [List.any_eq_false]
          intro x hx
          simp only [beq_iff_eq]
          intro hxid
          have hmem : x.id ∈ rest.map MetaRow.id :=
            List.mem_map_of_mem _ hx
          rw [hxid, ← hid] at hmem
          exact hnotin hmem
        rw [hfalse]
        rfl
      rw [hrestnil, hr, Bool.true_or, if_pos rfl]
    · have hr0 : (r.id == m.id) = false := by simpa using hr
      rw [if_neg hr, List.filter_cons, if_neg hr, hr0, Bool.false_or]
      exact ih hndrest

/-- After `metaUpsert rows m` (with distinct ids), the rows carrying `m.id`
are exactly `[m]`. -/
theorem metaUpsert_filter_eq (rows : List MetaRow) (m : MetaRow)
    (hnodup : (rows.map MetaRow.id).Nodup) :
    (metaUpsert rows m).filter (fun r => r.id == m.id) = [m] := by
  rw [metaUpsert]
  split
  · rename_i hany
    rw [filter_map_replace rows m hnodup, if_pos hany]
  · rename_i hany
    rw [List.filter_append]
    have h1 : rows.filter (fun r => r.id == m.id) = [] := by
      rw [List.filter_eq_nil_iff]
      intro r hr
      intro hrid
      exact hany (List.any_eq_true.2 ⟨r, hr, hrid⟩)
    rw [h1]
    simp

end ReRag

namespace ReRag

/-- Inversion for a successful `vecInsert`: the new row set is the old ones
plus the appended row. -/
theorem vecInsert_ok_inv {rows : List VecRow} {dim : Nat} {id : Nat}
    {emb : List Int} {v : List VecRow}
    (h : vecInsert rows dim id emb = .ok v) :
    v = rows ++ [(id, emb)] := by
  rw [vecInsert] at h
  revert h
  split
  · intro h; cases h
  · split
    · intro h; cases h
    · intro h; exact (Except.ok.inj h).symm

/-- Inversion for a successful `UpsertDocument` on a document that already
carries an id: the post-call metadata rows are the upserted ones and the
post-call vector rows are delete-then-insert. -/
theorem upsert_ok_parts {s : Store} {d : Document} {g : Nat}
    (hdnz : d.id ≠ nilId) (h : (UpsertDocument s d g).1 = .ok ()) :
    ∃ s1, ensureVecTableExists s d.embedding.length = .ok s1 ∧
      (UpsertDocument s d g).2.1.documents =
        metaUpsert s1.documents ⟨d.id, d.title, d.content⟩ ∧
      (UpsertDocument s d g).2.1.vec =
        (s1.vec.filter (fun r => !(r.1 == d.id))) ++ [(d.id, d.embedding)] := by
  rw [UpsertDocument] at h ⊢
  rw [if_neg hdnz] at h ⊢
  revert h
  dsimp only
  split
  · intro h; cases h
  · rename_i s1 hens
    split
    · intro h; cases h
    · rename_i vec2 hvec
      intro _
      exact ⟨s1, hens, rfl, vecInsert_ok_inv hvec⟩

/-- Rows deleted by id contain no row with that id. -/
theorem filter_of_filter_not (l : List VecRow) (id : Nat) :
    ((l.filter (fun r => !(r.1 == id))).filter (fun r => r.1 == id)) = [] := by
  rw [List.filter_eq_nil_iff]
  intro r hr
  have h2 := (List.mem_filter.1 hr).2
  simp only [Bool.not_eq_eq_eq_not, Bool.not_true] at h2
  simp [h2]

/-- C7: upserting `d1` and then `d2` under the same (non-nil) id leaves
exactly one metadata row and exactly one vector row under that id, carrying
the second call's title, content and embedding. -/
theorem upsert_twice_last_wins (s : Store) (d1 d2 : Document) (g1 g2 : Nat)
    (hid : d1.id = d2.id) (hnz : d2.id ≠ nilId)
    (hnodup : (s.documents.map MetaRow.id).Nodup)
    (h1 : (UpsertDocument s d1 g1).1 = .ok ())
    (h2 : (UpsertDocument ((UpsertDocument s d1 g1).2.1) d2 g2).1 = .ok ()) :
    (((UpsertDocument ((UpsertDocument s d1 g1).2.1) d2 g2).2.1.documents.filter
        (fun r => r.id == d2.id)) = [⟨d2.id, d2.title, d2.content⟩]) ∧
    (((UpsertDocument ((UpsertDocument s d1 g1).2.1) d2 g2).2.1.vec.filter
        (fun r => r.1 == d2.id)) = [(d2.id, d2.embedding)]) := by
  have hd1nz : d1.id ≠ nilId := by rw [hid]; exact hnz
  obtain ⟨s1, hens1, hdocs1, _⟩ := upsert_ok_parts hd1nz h1
  obtain ⟨s2, hens2, hdocs2, hvec2⟩ := upsert_ok_parts hnz h2
  constructor
  · rw [hdocs2]
    have hnd : (s2.documents.map MetaRow.id).Nodup := by
      rw [(ensureVecTableExists_ok_rows hens2).1, hdocs1]
      apply metaUpsert_nodup
      rw [(ensureVecTableExists_ok_rows hens1).1]
      exact hnodup
    exact metaUpsert_filter_eq s2.documents ⟨d2.id, d2.title, d2.content⟩ hnd
  · rw [hvec2, List.filter_append, filter_of_filter_not]
    simp

/-- Witness for C7 on `exStore`: replacing document 2 twice leaves exactly its
second version. -/
theorem upsert_twice_last_wins_witness :
    ((((UpsertDocument ((UpsertDocument exStore ⟨2, "A", "a", [7]⟩ 8).2.1)
        ⟨2, "B", "b", [9]⟩ 8).2.1.documents.filter
          (fun r => r.id == 2)) = [⟨2, "B", "b"⟩]) ∧
    ((((UpsertDocument ((UpsertDocument exStore ⟨2, "A", "a", [7]⟩ 8).2.1)
        ⟨2, "B", "b", [9]⟩ 8).2.1.vec.filter
          (fun r => r.1 == 2)) = [(2, [9])]))) :=
  upsert_twice_last_wins exStore ⟨2, "A", "a", [7]⟩ ⟨2, "B", "b", [9]⟩ 8 8
    (by decide) (by decide) (by decide) (by decide) (by decide)

end ReRag

namespace ReRag

/-- C8: once the store holds at least one document, adding a document whose
embedding length differs from the established dimension fails with an error
(either the explicit `ensureVecTableExists` rejection or, when the
established length is the 768 default that check exempts, the vector table's
own dimension check), and the stored rows — hence `GetAllDocuments` — are
unchanged. -/
theorem addDocument_dim_mismatch_rejected (s : Store) (d : Document)
    (g : Nat) (dim : Nat)
    (htab : s.vecTableDim = some dim)
    (hlen : s.embeddingLength = dim)
    (hne : d.embedding.length ≠ dim)
    (hdocs : 0 < s.documents.length) :
    (∃ e, (AddDocument s d g).1 = .error e) ∧
    (AddDocument s d g).2.1.documents = s.documents ∧
    (AddDocument s d g).2.1.vec = s.vec ∧
    GetAllDocuments (AddDocument s d g).2.1 = GetAllDocuments s := by
  rw [AddDocument]
  have hemb : (if d.id = nilId then { d with id := g } else d).embedding =
      d.embedding := by
    split <;> rfl
  by_cases h768 : dim = 768
  · have hens : ensureVecTableExists s
        (if d.id = nilId then { d with id := g } else d).embedding.length =
        .ok s := by
      rw [ensureVecTableExists, hemb]
      rw [if_neg (by rw [hlen, h768]; intro hcon; exact hcon.2.1 rfl)]
      rw [htab]
    rw [hens]
    dsimp only
    split
    · exact ⟨⟨_, rfl⟩, rfl, rfl, rfl⟩
    · have hvi : vecInsert s.vec (s.vecTableDim.getD s.embeddingLength)
          (if d.id = nilId then { d with id := g } else d).id
          (if d.id = nilId then { d with id := g } else d).embedding =
          .error "vector dimension mismatch" := by
        rw [vecInsert, hemb, htab]
        rw [if_pos (by simpa using hne)]
      rw [hvi]
      exact ⟨⟨_, rfl⟩, rfl, rfl, rfl⟩
  · have hens : ensureVecTableExists s
        (if d.id = nilId then { d with id := g } else d).embedding.length =
        .error "cannot change embedding length with existing documents" := by
      rw [ensureVecTableExists, hemb]
      rw [if_pos ⟨by rw [hlen]; exact fun hc => hne hc.symm,
        by rw [hlen]; exact h768, hdocs⟩]
    rw [hens]
    exact ⟨⟨_, rfl⟩, rfl, rfl, rfl⟩

/-- Witness for C8 on `exStore` (established dimension 1, one-element corpus,
new document of dimension 2). -/
theorem addDocument_dim_mismatch_rejected_witness :
    ((∃ e, (AddDocument exStore ⟨3, "t3", "c3", [1, 2]⟩ 9).1 = .error e) ∧
    (AddDocument exStore ⟨3, "t3", "c3", [1, 2]⟩ 9).2.1.documents =
      exStore.documents ∧
    (AddDocument exStore ⟨3, "t3", "c3", [1, 2]⟩ 9).2.1.vec = exStore.vec ∧
    GetAllDocuments (AddDocument exStore ⟨3, "t3", "c3", [1, 2]⟩ 9).2.1 =
      GetAllDocuments exStore) :=
  addDocument_dim_mismatch_rejected exStore ⟨3, "t3", "c3", [1, 2]⟩ 9 1
    (by decide) (by decide) (by decide) (by decide)

end ReRag

namespace ReRag

/-! ## List lemmas for the completeness proof -/

theorem filterMap_take_of_total {α β : Type} (g : α → Option β) :
    ∀ (l : List α) (n : Nat), (∀ a ∈ l, (g a).isSome) →
      (l.take n).filterMap g = (l.filterMap g).take n := by
  intro l
  induction l with
  | nil => intro n _; simp
  | cons a t ih =>
    intro n htot
    cases n with
    | zero => simp
    | succ n =>
      rw [List.take_succ_cons, List.filterMap_cons, List.filterMap_cons]
      cases hga : g a with
      | none =>
        exfalso
        have := htot a (List.mem_cons_self a t)
        rw [hga] at this
        cases this
      | some b =>
        rw [List.take_succ_cons]
        rw [ih n (fun x hx => htot x (List.mem_cons_of_mem a hx))]

theorem length_filterMap_of_total {α β : Type} (g : α → Option β) :
    ∀ (l : List α), (∀ a ∈ l, (g a).isSome) →
      (l.filterMap g).length = l.length := by
  intro l
  induction l with
  | nil => intro _; rfl
  | cons a t ih =>
    intro htot
    rw [List.filterMap_cons]
    cases hga : g a with
    | none =>
      exfalso
      have := htot a (List.mem_cons_self a t)
      rw [hga] at this
      cases this
    | some b =>
      rw [List.length_cons, ih (fun x hx => htot x (List.mem_cons_of_mem a hx))]
      rfl

/-- Characterisation of the `applyFilter` loop with a partially filled
accumulator: it appends the next `topK - len(acc)` survivors. -/
theorem applyFilterAux_eq (filter : Document → Bool) (topK : Int) :
    ∀ (c acc : List Document), (acc.length : Int) < topK →
      applyFilterAux filter topK acc c =
        acc ++ (c.filter filter).take (topK.toNat - acc.length) := by
  intro c
  induction c with
  | nil => intro acc _; rw [applyFilterAux]; simp
  | cons a rest ih =>
    intro acc hlt
    rw [applyFilterAux, List.filter_cons]
    by_cases hf : filter a = true
    · rw [if_pos hf, if_pos hf]
      have hpos : 1 ≤ topK.toNat - acc.length := by omega
      by_cases hfull : topK ≤ (((acc ++ [a]).length : Nat) : Int)
      · rw [if_pos hfull]
        have h1 : topK.toNat - acc.length = 1 := by
          rw [List.length_append, List.length_singleton] at hfull
          omega
        rw [h1]
        rw [List.take_succ_cons, List.take_zero]
      · rw [if_neg hfull]
        rw [ih (acc ++ [a]) (by rw [List.length_append, List.length_singleton] at hfull ⊢; omega)]
        have h2 : topK.toNat - acc.length = (topK.toNat - (acc ++ [a]).length) + 1 := by
          rw [List.length_append, List.length_singleton] at hfull ⊢
          omega
        rw [h2, List.take_succ_cons, List.append_assoc, List.singleton_append]
    · rw [if_neg hf, if_neg hf]
      exact ih acc hlt

/-- For `topK ≥ 1`, `applyFilter` returns the first `topK` candidates passing
the filter, in order. -/
theorem applyFilter_eq_take (candidates : List Document) (topK : Int)
    (filter : Document → Bool) (hK : 1 ≤ topK) :
    applyFilter candidates topK filter =
      (candidates.filter filter).take topK.toNat := by
  rw [applyFilter, applyFilterAux_eq filter topK candidates [] (by simpa using hK)]
  simp

/-- When a prefix already contains `K` survivors, its first `K` survivors are
those of the whole list. -/
theorem filter_take_take {α : Type} (p : α → Bool) :
    ∀ (l : List α) (n K : Nat), K ≤ ((l.take n).filter p).length →
      ((l.take n).filter p).take K = (l.filter p).take K := by
  intro l
  induction l with
  | nil => intro n K _; simp
  | cons a t ih =>
    intro n K hK
    cases n with
    | zero =>
      simp only [List.take_zero, List.filter_nil, List.length_nil] at hK
      have : K = 0 := Nat.le_zero.1 hK
      rw [this]
      simp
    | succ n =>
      rw [List.take_succ_cons, List.filter_cons] at hK
      rw [List.take_succ_cons, List.filter_cons, List.filter_cons]
      by_cases hp : p a = true
      · rw [if_pos hp] at hK
        rw [if_pos hp, if_pos hp]
        cases K with
        | zero => simp
        | succ K =>
          rw [List.take_succ_cons, List.take_succ_cons]
          rw [List.length_cons] at hK
          rw [ih n K (Nat.le_of_succ_le_succ hK)]
      · rw [if_neg hp] at hK
        rw [if_neg hp, if_neg hp]
        exact ih n K hK

end ReRag

namespace ReRag

/-- The whole corpus as the search sees it: every `vec_documents` row joined
with its metadata, in ascending distance order from the query. -/
def sortedCorpus (s : Store) (q : List Int) : List Document :=
  (List.insertionSort (distLE q) s.vec).filterMap (joinRow s)

/-- The KNN distance of the stored vector carried by a given document id
(0 when no vector row carries the id). -/
def idDist (s : Store) (q : List Int) (id : Nat) : Int :=
  match s.vec.find? (fun r => r.1 == id) with
  | some r => dist2 q r.2
  | none => 0

/-- Under join totality the KNN query returns exactly the first
`k` documents of the sorted corpus. -/
theorem searchWithSqliteVec_take {s : Store} {q : List Int} {dim : Nat}
    (htab : s.vecTableDim = some dim) (hq : q.length = dim)
    (htotal : ∀ r ∈ s.vec, (joinRow s r).isSome) (k : Int) :
    searchWithSqliteVec s q k = .ok ((sortedCorpus s q).take k.toNat) := by
  rw [searchWithSqliteVec_ok htab hq, knnRows, sortedCorpus]
  rw [filterMap_take_of_total (joinRow s) _ _
    (fun r hr => htotal r ((List.mem_insertionSort (distLE q)).1 hr))]

/-- The sorted corpus has one document per vector row. -/
theorem sortedCorpus_length {s : Store} {q : List Int}
    (htotal : ∀ r ∈ s.vec, (joinRow s r).isSome) :
    (sortedCorpus s q).length = s.vec.length := by
  rw [sortedCorpus]
  rw [length_filterMap_of_total (joinRow s) _
    (fun r hr => htotal r ((List.mem_insertionSort (distLE q)).1 hr))]
  exact List.length_insertionSort (distLE q) s.vec

/-- A joined document keeps the row's id. -/
theorem joinRow_id {s : Store} {r : VecRow} {d : Document}
    (h : joinRow s r = some d) : d.id = r.1 := by
  rw [joinRow] at h
  rcases Option.map_eq_some'.1 h with ⟨m, hm, hd⟩
  have := List.find?_some hm
  rw [← hd]
  simpa [docOfMeta] using this

/-- With distinct vector ids, looking a row's id back up returns that row. -/
theorem find?_fst_eq {l : List VecRow} (hnodup : (l.map Prod.fst).Nodup) :
    ∀ {r : VecRow}, r ∈ l → l.find? (fun x => x.1 == r.1) = some r := by
  induction l with
  | nil => intro r hr; cases hr
  | cons a t ih =>
    rw [List.map_cons, List.nodup_cons] at hnodup
    intro r hr
    by_cases ha : (a.1 == r.1) = true
    · rw [List.find?_cons, ha]
      rcases List.mem_cons.1 hr with h | h
      · rw [h]
      · exfalso
        have haeq : a.1 = r.1 := by simpa using ha
        exact hnodup.1 (haeq ▸ List.mem_map_of_mem Prod.fst h)
    · have ha0 : (a.1 == r.1) = false := by simpa using ha
      rw [List.find?_cons, ha0]
      rcases List.mem_cons.1 hr with h | h
      · exfalso
        rw [h] at ha
        simp at ha
      · exact ih hnodup.2 h

/-- `idDist` of a row's id is that row's distance. -/
theorem idDist_of_mem {s : Store} {q : List Int}
    (hnodup : (s.vec.map Prod.fst).Nodup) {r : VecRow} (hr : r ∈ s.vec) :
    idDist s q r.1 = dist2 q r.2 := by
  rw [idDist, find?_fst_eq hnodup hr]

/-- The sorted corpus is ordered by ascending distance to the query. -/
theorem sortedCorpus_pairwise {s : Store} {q : List Int}
    (hnodup : (s.vec.map Prod.fst).Nodup) :
    (sortedCorpus s q).Pairwise
      (fun a b => idDist s q a.id ≤ idDist s q b.id) := by
  rw [sortedCorpus]
  rw [List.pairwise_filterMap]
  have hsorted : (List.insertionSort (distLE q) s.vec).Pairwise (distLE q) :=
    List.sorted_insertionSort (distLE q) s.vec
  refine hsorted.imp_of_mem ?_
  intro a b ha hb hab
  intro x hx y hy
  have hax : joinRow s a = some x := hx
  have hby : joinRow s b = some y := hy
  rw [joinRow_id hax, joinRow_id hby]
  rw [idDist_of_mem hnodup ((List.mem_insertionSort (distLE q)).1 ha),
    idDist_of_mem hnodup ((List.mem_insertionSort (distLE q)).1 hb)]
  exact hab

end ReRag

namespace ReRag

/-- The heart of the completeness argument: under the reachable-store
invariants, when at least `topK` documents of the corpus pass the filter and
the corpus is within the `topK * 2^(maxAttempts+1)` horizon of the safety
bound, every level of the adaptive search returns exactly the first `topK`
authorized documents in distance order. -/
theorem searchGo_exact {s : Store} {q : List Int} {dim : Nat}
    (htab : s.vecTableDim = some dim) (hq : q.length = dim)
    (htotal : ∀ r ∈ s.vec, (joinRow s r).isSome)
    {topK : Int} {filter : Document → Bool}
    (h0K : 0 ≤ topK)
    (hsize : (s.vec.length : Int) ≤ topK * 2 ^ (maxAttempts + 1)) :
    ∀ (fuel attempt : Nat) (multiplier : Int),
      fuel = maxAttempts - attempt →
      attempt ≤ maxAttempts →
      multiplier = 2 ^ (attempt + 1) →
      searchGo s q topK filter fuel multiplier attempt =
        .ok (((sortedCorpus s q).filter filter).take topK.toNat) := by
  intro fuel
  induction fuel with
  | zero =>
    intro attempt multiplier hfuel hatt hmult
    have hattEq : attempt = maxAttempts := by
      rw [maxAttempts] at hfuel hatt ⊢; omega
    rw [searchGo, searchCeiling, searchWithSqliteVec_take htab hq htotal]
    simp only [Except.map]
    rcases eq_or_lt_of_le h0K with hK0 | hKpos
    · rw [← hK0]
      simp [applyFilter, applyFilterAux]
    · have hmge : (s.vec.length : Int) ≤ topK * multiplier := by
        rw [hmult, hattEq]
        exact hsize
      have htake : (sortedCorpus s q).take (topK * multiplier).toNat =
          sortedCorpus s q := by
        apply List.take_of_length_le
        rw [sortedCorpus_length htotal]
        omega
      rw [htake, applyFilter_eq_take _ _ _ hKpos]
  | succ fuel ih =>
    intro attempt multiplier hfuel hatt hmult
    have hattlt : attempt < maxAttempts := by omega
    rw [searchGo, searchWithSqliteVec_take htab hq htotal]
    dsimp only
    rcases eq_or_lt_of_le h0K with hK0 | hKpos
    · rw [if_pos (Or.inl (by rw [← hK0]; exact Int.ofNat_nonneg _))]
      rw [← hK0]
      simp [applyFilter, applyFilterAux]
    · have happ := applyFilter_eq_take
        ((sortedCorpus s q).take (topK * multiplier).toNat) topK filter hKpos
      by_cases hcond : topK ≤
          ((applyFilter ((sortedCorpus s q).take (topK * multiplier).toNat)
            topK filter).length : Int) ∨
          ((((sortedCorpus s q).take (topK * multiplier).toNat).length : Nat) : Int) <
            topK * multiplier
      · rw [if_pos hcond]
        rw [happ]
        rcases hcond with henough | hexh
        · rw [happ] at henough
          rw [List.length_take] at henough
          have hlen : topK.toNat ≤
              (((sortedCorpus s q).take (topK * multiplier).toNat).filter
                filter).length := by
            omega
          rw [filter_take_take filter _ _ _ hlen]
        · rw [List.length_take] at hexh
          have hDlen : (sortedCorpus s q).length < (topK * multiplier).toNat := by
            omega
          rw [List.take_of_length_le (le_of_lt hDlen)]
      · rw [if_neg hcond]
        exact ih (attempt + 1) (multiplier * 2) (by omega) (by omega)
          (by rw [hmult]; ring)

/-- C2 (amended): for every reachable store whose corpus holds at most
`K * 2^11` documents and in which at least `K` documents satisfy the
predicate, `SearchSimilarWithFilter` returns exactly `K` documents, all
satisfying the predicate, ordered by ascending distance to the query. -/
theorem search_complete_when_available (s : Store) (q : List Int)
    (topK : Int) (filter : Document → Bool) (dim : Nat)
    (htab : s.vecTableDim = some dim) (hq : q.length = dim)
    (htotal : ∀ r ∈ s.vec, (joinRow s r).isSome)
    (hnodup : (s.vec.map Prod.fst).Nodup)
    (hsize : (s.vec.length : Int) ≤ topK * 2 ^ (maxAttempts + 1))
    (havail : topK ≤ (((sortedCorpus s q).filter filter).length : Int)) :
    ∃ res, SearchSimilarWithFilter s q topK filter = .ok res ∧
      (res.length : Int) = topK ∧
      (∀ d ∈ res, filter d = true) ∧
      res.Pairwise (fun a b => idDist s q a.id ≤ idDist s q b.id) := by
  have h0K : 0 ≤ topK := by
    by_contra hneg
    push_neg at hneg
    have h1 : topK * 2 ^ (maxAttempts + 1) < 0 :=
      mul_neg_of_neg_of_pos hneg (by positivity)
    exact absurd (le_trans (Int.ofNat_nonneg s.vec.length) hsize) (not_le.2 h1)
  refine ⟨((sortedCorpus s q).filter filter).take topK.toNat, ?_, ?_, ?_, ?_⟩
  · exact searchGo_exact htab hq htotal h0K hsize (maxAttempts - 0) 0
      initialMultiplier rfl (by omega) (by rw [initialMultiplier]; norm_num)
  · rw [List.length_take]
    omega
  · intro d hd
    exact (List.mem_filter.1 (List.mem_of_mem_take hd)).2
  · exact List.Pairwise.sublist
      ((List.take_sublist _ _).trans (List.filter_sublist _))
      (sortedCorpus_pairwise hnodup)

/-- Witness for C2 (amended) on `exStore`: `K = 1`, the predicate selects
document 2. -/
theorem search_complete_when_available_witness :
    ∃ res, SearchSimilarWithFilter exStore exQ 1 (fun d => d.id == 2) = .ok res ∧
      (res.length : Int) = 1 ∧
      (∀ d ∈ res, (fun d : Document => d.id == 2) d = true) ∧
      res.Pairwise (fun a b => idDist exStore exQ a.id ≤ idDist exStore exQ b.id) :=
  search_complete_when_available exStore exQ 1 (fun d => d.id == 2) 1
    (by decide) (by decide) (by decide) (by decide) (by decide) (by decide)

end ReRag

namespace ReRag

/-- One KNN query per attempt plus the final one: the instrumented `k` list
has at most `fuel + 1` entries. -/
theorem ksGo_length (s : Store) (q : List Int) (topK : Int)
    (filter : Document → Bool) :
    ∀ (fuel : Nat) (multiplier : Int) (attempt : Nat),
      (ksGo s q topK filter fuel multiplier attempt).length ≤ fuel + 1 := by
  intro fuel
  induction fuel with
  | zero => intro multiplier attempt; rw [ksGo]; simp
  | succ fuel ih =>
    intro multiplier attempt
    rw [ksGo]
    cases searchWithSqliteVec s q (topK * multiplier) with
    | error e => simp
    | ok candidates =>
      dsimp only
      split
      · simp
      · rw [List.length_cons]
        have := ih (multiplier * 2) (attempt + 1)
        omega

/-- Every requested candidate count is at most `topK * 2^(maxAttempts+1)`,
the ceiling fetch being the largest. -/
theorem ksGo_bound (s : Store) (q : List Int) (topK : Int)
    (filter : Document → Bool) (h0K : 0 ≤ topK) :
    ∀ (fuel attempt : Nat) (multiplier : Int),
      fuel = maxAttempts - attempt →
      attempt ≤ maxAttempts →
      multiplier = 2 ^ (attempt + 1) →
      ∀ k ∈ ksGo s q topK filter fuel multiplier attempt,
        k ≤ topK * 2 ^ (maxAttempts + 1) := by
  have hcur : ∀ (attempt : Nat) (multiplier : Int),
      attempt ≤ maxAttempts → multiplier = 2 ^ (attempt + 1) →
      topK * multiplier ≤ topK * 2 ^ (maxAttempts + 1) := by
    intro attempt multiplier hatt hmult
    apply mul_le_mul_of_nonneg_left _ h0K
    rw [hmult]
    exact pow_le_pow_right₀ (by norm_num) (by omega)
  intro fuel
  induction fuel with
  | zero =>
    intro attempt multiplier hfuel hatt hmult k hk
    rw [ksGo, List.mem_singleton] at hk
    rw [hk]
    exact hcur attempt multiplier hatt hmult
  | succ fuel ih =>
    intro attempt multiplier hfuel hatt hmult k hk
    have hattlt : attempt < maxAttempts := by omega
    rw [ksGo] at hk
    revert hk
    cases searchWithSqliteVec s q (topK * multiplier) with
    | error e =>
      intro hk
      rw [List.mem_singleton] at hk
      rw [hk]; exact hcur attempt multiplier hatt hmult
    | ok candidates =>
      dsimp only
      split
      · intro hk
        rw [List.mem_singleton] at hk
        rw [hk]; exact hcur attempt multiplier hatt hmult
      · intro hk
        rcases List.mem_cons.1 hk with hk | hk
        · rw [hk]; exact hcur attempt multiplier hatt hmult
        · exact ih (attempt + 1) (multiplier * 2) (by omega) (by omega)
            (by rw [hmult]; ring) k hk

/-- C4 (amended): a search makes at most 10 expansion attempts — hence at
most 11 KNN queries — every KNN query requests at most `K * 2^11` candidates
(the ceiling fetch requests exactly `K * 2^11`, exceeding the claimed
`K * 2^10`), and with the vector table present and a dimension-matching
query the call always returns without error. -/
theorem search_attempts_bounded (s : Store) (q : List Int) (topK : Int)
    (filter : Document → Bool) (dim : Nat)
    (htab : s.vecTableDim = some dim) (hq : q.length = dim)
    (h0K : 0 ≤ topK) :
    (searchRequestedKs s q topK filter initialMultiplier 0).length ≤
      maxAttempts + 1 ∧
    (∀ k ∈ searchRequestedKs s q topK filter initialMultiplier 0,
      k ≤ topK * 2 ^ (maxAttempts + 1)) ∧
    ∃ res, SearchSimilarWithFilter s q topK filter = .ok res := by
  refine ⟨?_, ?_, ?_⟩
  · have := ksGo_length s q topK filter (maxAttempts - 0) initialMultiplier 0
    rw [searchRequestedKs]
    omega
  · intro k hk
    exact ksGo_bound s q topK filter h0K (maxAttempts - 0) 0 initialMultiplier
      rfl (by omega) (by rw [initialMultiplier]; norm_num) k hk
  · exact searchGo_ok htab hq topK filter (maxAttempts - 0) initialMultiplier 0

/-- Witness for C4 (amended) on `exStore` with `K = 1` and a predicate that
rejects everything, so the ceiling machinery is exercised. -/
theorem search_attempts_bounded_witness :
    ((searchRequestedKs exStore exQ 1 (fun _ => false) initialMultiplier 0).length ≤
      maxAttempts + 1 ∧
    (∀ k ∈ searchRequestedKs exStore exQ 1 (fun _ => false) initialMultiplier 0,
      k ≤ 1 * 2 ^ (maxAttempts + 1)) ∧
    ∃ res, SearchSimilarWithFilter exStore exQ 1 (fun _ => false) = .ok res) :=
  search_attempts_bounded exStore exQ 1 (fun _ => false) 1 (by decide)
    (by decide) (by decide)

end ReRag

namespace ReRag

/-! ## A corpus beyond the safety-bound horizon -/

/-- 2049 documents: one more than the `K * 2^11 = 2048` candidates the
safety-bounded search can ever see for `K = 1`. -/
def bigN : Nat := 2049

/-- Metadata row of the `i`-th horizon document. -/
def bigMeta (i : Nat) : MetaRow := ⟨i, "", ""⟩

/-- The `i`-th horizon document as the search returns it. -/
def bigDoc (i : Nat) : Document := ⟨i, "", "", []⟩

/-- Vector row of the `i`-th horizon document. -/
def bigRow (i : Nat) : VecRow := (i, [(i : Int)])

/-- A store with `bigN` one-dimensional documents at increasing distance from
the origin. -/
def bigStore : Store :=
  { documents := (List.range bigN).map bigMeta
  , vec := (List.range bigN).map bigRow
  , vecTableDim := some 1
  , embeddingLength := 1 }

/-- The query at the origin: document `i` sits at squared distance `i^2`. -/
def bigQ : List Int := [0]

/-- The predicate authorizing only the farthest document. -/
def bigF : Document → Bool := fun d => d.id == 2048

theorem find?_append_of_some {α : Type} {p : α → Bool} {l₁ l₂ : List α}
    {a : α} (h : l₁.find? p = some a) : (l₁ ++ l₂).find? p = some a := by
  induction l₁ with
  | nil => cases h
  | cons b t ih =>
    by_cases hb : p b = true
    · rw [List.find?_cons, hb] at h
      rw [List.cons_append, List.find?_cons, hb]
      exact h
    · have hb0 : p b = false := by simpa using hb
      rw [List.find?_cons, hb0] at h
      rw [List.cons_append, List.find?_cons, hb0]
      exact ih h

theorem find?_append_of_none {α : Type} {p : α → Bool} {l₁ l₂ : List α}
    (h : l₁.find? p = none) : (l₁ ++ l₂).find? p = l₂.find? p := by
  induction l₁ with
  | nil => rfl
  | cons b t ih =>
    by_cases hb : p b = true
    · rw [List.find?_cons, hb] at h
      cases h
    · have hb0 : p b = false := by simpa using hb
      rw [List.find?_cons, hb0] at h
      rw [List.cons_append, List.find?_cons, hb0]
      exact ih h

theorem findMeta_range : ∀ (n i : Nat), i < n →
    findMeta i ((List.range n).map bigMeta) = some (bigMeta i) := by
  intro n
  induction n with
  | zero => intro i h; omega
  | succ n ih =>
    intro i h
    rw [List.range_succ, List.map_append]
    by_cases hi : i < n
    · exact find?_append_of_some (ih i hi)
    · have hin : i = n := by omega
      rw [hin]
      have hnone : findMeta n ((List.range n).map bigMeta) = none := by
        rw [findMeta, List.find?_eq_none]
        intro x hx
        rcases List.mem_map.1 hx with ⟨j, hj, hxj⟩
        have hjn : j < n := List.mem_range.1 hj
        rw [← hxj]
        simp only [bigMeta, beq_iff_eq]
        omega
      rw [findMeta] at hnone ⊢
      rw [find?_append_of_none hnone]
      rw [List.map_singleton, List.find?_cons]
      have : (((bigMeta n).id == n) : Bool) = true := by simp [bigMeta]
      rw [this]

theorem joinRow_big {i : Nat} (h : i < bigN) :
    joinRow bigStore (bigRow i) = some (bigDoc i) := by
  rw [joinRow]
  have hdocs : bigStore.documents = (List.range bigN).map bigMeta := rfl
  show (findMeta i bigStore.documents).map docOfMeta = some (bigDoc i)
  rw [hdocs, findMeta_range bigN i h]
  rfl

theorem filterMap_join_big : ∀ (l : List Nat), (∀ i ∈ l, i < bigN) →
    ((l.map bigRow).filterMap (joinRow bigStore)) = l.map bigDoc := by
  intro l
  induction l with
  | nil => intro _; rfl
  | cons i t ih =>
    intro hall
    rw [List.map_cons, List.filterMap_cons,
      joinRow_big (hall i (List.mem_cons_self i t))]
    rw [List.map_cons, ih (fun j hj => hall j (List.mem_cons_of_mem i hj))]

theorem dist2_bigQ (x : Int) : dist2 bigQ [x] = x ^ 2 := by
  show dist2 [0] [x] = x ^ 2
  rw [dist2]
  simp [sq]

theorem bigVec_sorted :
    List.insertionSort (distLE bigQ) bigStore.vec = bigStore.vec := by
  apply List.Sorted.insertionSort_eq
  have hvec : bigStore.vec = (List.range bigN).map bigRow := rfl
  rw [hvec]
  rw [List.Sorted, List.pairwise_map]
  apply (List.pairwise_lt_range bigN).imp
  intro i j hij
  show dist2 bigQ [(i : Int)] ≤ dist2 bigQ [(j : Int)]
  rw [dist2_bigQ, dist2_bigQ]
  have hij2 : (i : Int) ≤ (j : Int) := by exact_mod_cast le_of_lt hij
  have h0 : (0 : Int) ≤ (i : Int) := Int.ofNat_nonneg i
  exact pow_le_pow_left₀ h0 hij2 2

theorem bigSearchVec (k : Int) (hle : k.toNat ≤ bigN) :
    searchWithSqliteVec bigStore bigQ k =
      .ok ((List.range k.toNat).map bigDoc) := by
  rw [searchWithSqliteVec_ok rfl rfl, knnRows, bigVec_sorted]
  have hvec : bigStore.vec = (List.range bigN).map bigRow := rfl
  rw [hvec, ← List.map_take, List.take_range]
  have hmin : min k.toNat bigN = k.toNat := by omega
  rw [hmin]
  rw [filterMap_join_big _
    (fun i hi => lt_of_lt_of_le (List.mem_range.1 hi) hle)]

theorem bigCorpus : sortedCorpus bigStore bigQ = (List.range bigN).map bigDoc := by
  rw [sortedCorpus, bigVec_sorted]
  have hvec : bigStore.vec = (List.range bigN).map bigRow := rfl
  rw [hvec]
  exact filterMap_join_big _ (fun i hi => List.mem_range.1 hi)

theorem bigAvail : ((sortedCorpus bigStore bigQ).filter bigF).length = 1 := by
  rw [bigCorpus, List.filter_map]
  have hcomp : (bigF ∘ bigDoc) = fun i => i == 2048 := rfl
  rw [hcomp]
  have hsplit : List.range bigN = List.range 2048 ++ [2048] := by
    rw [show bigN = 2048 + 1 from rfl, List.range_succ]
  rw [hsplit, List.filter_append]
  have h1 : (List.range 2048).filter (fun i => i == 2048) = [] := by
    rw [List.filter_eq_nil_iff]
    intro i hi
    have := List.mem_range.1 hi
    simp only [beq_iff_eq]
    omega
  rw [h1]
  simp

end ReRag

namespace ReRag

/-- Every candidate pool the horizon run fetches has the form
`(range m).map bigDoc` and `m ≤ 2048`, so any filter rejecting ids below 2048
rejects every candidate. -/
theorem bigCandidates_all_false {f : Document → Bool}
    (hF : ∀ i : Nat, i < 2048 → f (bigDoc i) = false) {m : Nat}
    (hm : m ≤ 2048) : ∀ d ∈ (List.range m).map bigDoc, f d = false := by
  intro d hd
  rcases List.mem_map.1 hd with ⟨i, hi, hdi⟩
  have hilt : i < 2048 := lt_of_lt_of_le (List.mem_range.1 hi) hm
  rw [← hdi]
  exact hF i hilt

theorem big_toNat (attempt : Nat) :
    ((1 : Int) * 2 ^ (attempt + 1)).toNat = 2 ^ (attempt + 1) := by
  rw [one_mul, show ((2 : Int) ^ (attempt + 1)) =
    ((2 ^ (attempt + 1) : Nat) : Int) from by push_cast; ring]
  exact Int.toNat_natCast _

/-- On the horizon store with `K = 1` and a filter rejecting every id below
2048, every level of the recursive search comes back empty: the candidate
pool never reaches past the first 2048 documents. -/
theorem bigGo_empty (f : Document → Bool)
    (hF : ∀ i : Nat, i < 2048 → f (bigDoc i) = false) :
    ∀ (fuel attempt : Nat), fuel = maxAttempts - attempt →
      attempt ≤ maxAttempts →
      searchGo bigStore bigQ 1 f fuel ((2 : Int) ^ (attempt + 1)) attempt =
        .ok [] := by
  intro fuel
  induction fuel with
  | zero =>
    intro attempt hfuel hatt
    have hattEq : attempt = maxAttempts := by
      rw [maxAttempts] at hfuel hatt ⊢; omega
    subst hattEq
    rw [searchGo, searchCeiling]
    rw [bigSearchVec (1 * 2 ^ (maxAttempts + 1)) (by decide)]
    simp only [Except.map]
    rw [applyFilter_of_all_false (bigCandidates_all_false hF (by decide))]
  | succ fuel ih =>
    intro attempt hfuel hatt
    have hattlt : attempt < maxAttempts := by omega
    have hle : ((1 : Int) * 2 ^ (attempt + 1)).toNat ≤ bigN := by
      rw [big_toNat]
      calc 2 ^ (attempt + 1) ≤ 2 ^ maxAttempts :=
            Nat.pow_le_pow_right (by norm_num) (by omega)
        _ ≤ bigN := by rw [maxAttempts, bigN]; norm_num
    have hm : ((1 : Int) * 2 ^ (attempt + 1)).toNat ≤ 2048 := by
      rw [big_toNat]
      calc 2 ^ (attempt + 1) ≤ 2 ^ maxAttempts :=
            Nat.pow_le_pow_right (by norm_num) (by omega)
        _ ≤ 2048 := by rw [maxAttempts]; norm_num
    rw [searchGo, bigSearchVec (1 * 2 ^ (attempt + 1)) hle]
    dsimp only
    rw [applyFilter_of_all_false (bigCandidates_all_false hF hm)]
    have hlen : ((((List.range ((1 : Int) * 2 ^ (attempt + 1)).toNat).map
        bigDoc).length : Nat) : Int) = 1 * 2 ^ (attempt + 1) := by
      rw [List.length_map, List.length_range, big_toNat]
      push_cast
      ring
    have hcond : ¬ ((1 : Int) ≤ ((([] : List Document).length : Nat) : Int) ∨
        ((((List.range ((1 : Int) * 2 ^ (attempt + 1)).toNat).map
          bigDoc).length : Nat) : Int) < 1 * 2 ^ (attempt + 1)) := by
      intro hc
      rcases hc with hc | hc
      · simp at hc
      · rw [hlen] at hc
        exact lt_irrefl _ hc
    rw [if_neg hcond]
    rw [show ((2 : Int) ^ (attempt + 1) * 2) = 2 ^ (attempt + 1 + 1) from by
      ring]
    exact ih (attempt + 1) (by omega) (by omega)

/-- The instrumented run on the horizon store: the final, largest KNN request
of `1 * 2^11` candidates is in the requested-`k` list. -/
theorem bigKs_mem (f : Document → Bool)
    (hF : ∀ i : Nat, i < 2048 → f (bigDoc i) = false) :
    ∀ (fuel attempt : Nat), fuel = maxAttempts - attempt →
      attempt ≤ maxAttempts →
      ((1 : Int) * 2 ^ (maxAttempts + 1)) ∈
        ksGo bigStore bigQ 1 f fuel ((2 : Int) ^ (attempt + 1)) attempt := by
  intro fuel
  induction fuel with
  | zero =>
    intro attempt hfuel hatt
    have hattEq : attempt = maxAttempts := by
      rw [maxAttempts] at hfuel hatt ⊢; omega
    subst hattEq
    rw [ksGo]
    exact List.mem_singleton.2 rfl
  | succ fuel ih =>
    intro attempt hfuel hatt
    have hattlt : attempt < maxAttempts := by omega
    have hle : ((1 : Int) * 2 ^ (attempt + 1)).toNat ≤ bigN := by
      rw [big_toNat]
      calc 2 ^ (attempt + 1) ≤ 2 ^ maxAttempts :=
            Nat.pow_le_pow_right (by norm_num) (by omega)
        _ ≤ bigN := by rw [maxAttempts, bigN]; norm_num
    have hm : ((1 : Int) * 2 ^ (attempt + 1)).toNat ≤ 2048 := by
      rw [big_toNat]
      calc 2 ^ (attempt + 1) ≤ 2 ^ maxAttempts :=
            Nat.pow_le_pow_right (by norm_num) (by omega)
        _ ≤ 2048 := by rw [maxAttempts]; norm_num
    rw [ksGo, bigSearchVec (1 * 2 ^ (attempt + 1)) hle]
    dsimp only
    rw [applyFilter_of_all_false (bigCandidates_all_false hF hm)]
    have hlen : ((((List.range ((1 : Int) * 2 ^ (attempt + 1)).toNat).map
        bigDoc).length : Nat) : Int) = 1 * 2 ^ (attempt + 1) := by
      rw [List.length_map, List.length_range, big_toNat]
      push_cast
      ring
    have hcond : ¬ ((1 : Int) ≤ ((([] : List Document).length : Nat) : Int) ∨
        ((((List.range ((1 : Int) * 2 ^ (attempt + 1)).toNat).map
          bigDoc).length : Nat) : Int) < 1 * 2 ^ (attempt + 1)) := by
      intro hc
      rcases hc with hc | hc
      · simp at hc
      · rw [hlen] at hc
        exact lt_irrefl _ hc
    rw [if_neg hcond]
    apply List.mem_cons_of_mem
    rw [show ((2 : Int) ^ (attempt + 1) * 2) = 2 ^ (attempt + 1 + 1) from by
      ring]
    exact ih (attempt + 1) (by omega) (by omega)

end ReRag

namespace ReRag

/-- Counterexample to C2 as stated: `bigStore` holds 2049 documents, exactly
one of which (the farthest) satisfies `bigF`, so "at least K = 1 documents
satisfy the predicate" holds; yet the search returns the empty list — after
ten doublings the safety bound stops the expansion at a candidate pool of
`1 * 2^11 = 2048` nearest documents, which misses the single authorized
one. -/
theorem horizon_misses_authorized_document :
    (1 : Int) ≤ (((sortedCorpus bigStore bigQ).filter bigF).length : Int) ∧
    SearchSimilarWithFilter bigStore bigQ 1 bigF = .ok [] := by
  constructor
  · rw [bigAvail]
    norm_num
  · show searchGo bigStore bigQ 1 bigF (maxAttempts - 0) initialMultiplier 0 =
      .ok []
    rw [show initialMultiplier = (2 : Int) ^ (0 + 1) from by
      rw [initialMultiplier]; norm_num]
    refine bigGo_empty bigF ?_ (maxAttempts - 0) 0 rfl (by omega)
    intro i hilt
    have : (i == 2048) = false := by
      simp only [beq_eq_false_iff_ne]
      omega
    simpa [bigF, bigDoc] using this

/-- Counterexample to C4 as stated: on `bigStore` with `K = 1` and a filter
rejecting everything, the requested-`k` list of the search contains
`1 * 2^11 = 2048`, strictly above the claimed `K * 2^10` bound — the
max-attempts branch fetches `topK * multiplier` after the multiplier has
already been doubled an eleventh time. -/
theorem requested_k_exceeds_claimed_bound :
    ((1 : Int) * 2 ^ maxAttempts < (1 : Int) * 2 ^ (maxAttempts + 1)) ∧
    ((1 : Int) * 2 ^ (maxAttempts + 1)) ∈
      searchRequestedKs bigStore bigQ 1 (fun _ => false) initialMultiplier 0 := by
  constructor
  · rw [maxAttempts]; norm_num
  · show _ ∈ ksGo bigStore bigQ 1 (fun _ => false) (maxAttempts - 0)
      initialMultiplier 0
    rw [show initialMultiplier = (2 : Int) ^ (0 + 1) from by
      rw [initialMultiplier]; norm_num]
    exact bigKs_mem (fun _ => false) (fun _ _ => rfl) (maxAttempts - 0) 0 rfl
      (by omega)

end ReRag
